import Mathlib

/-!
Verification development for the PPO training module
(`rl4co/models/rl/ppo/ppo.py`).

Tensors holding one scalar per problem instance are embedded as `List ℝ`;
per-step log-probability tensors as `List (List ℝ)`.  Python floats are
embedded as `ℝ` (or `ℚ` where the code only does arithmetic that stays
rational, such as the minibatch-size inference), Python ints as `ℤ`/`ℕ`,
and fallible code paths as `Except String`.
-/

namespace PPOSpec

/-! ## Minibatch-size configuration (`PPO.__init__`, `PPO.shared_step`) -/

/-- The runtime type of the `mini_batch_size` hyperparameter: a Python
`int`, a Python `float` (embedded as `ℚ`), or a value of any other,
unsupported type. -/
inductive MBSize where
  | int : ℤ → MBSize
  | frac : ℚ → MBSize
  | other : String → MBSize
deriving DecidableEq

/-- Constructor-time validation of `mini_batch_size` (ppo.py lines 87-101):
a float outside (0, 1] is replaced by the default fraction 0.25 with a
warning; an int ≤ 0 is replaced by the default 128 with a warning; any
other value passes through unchanged.  The returned `Bool` records whether
a warning was emitted.  The function is total: no error is ever raised. -/
def validateMiniBatchSize : MBSize → MBSize × Bool
  | MBSize.frac q =>
      if q ≤ 0 ∨ 1 < q then (MBSize.frac (1/4), true) else (MBSize.frac q, false)
  | MBSize.int n =>
      if n ≤ 0 then (MBSize.int 128, true) else (MBSize.int n, false)
  | MBSize.other s => (MBSize.other s, false)

/-- The hyperparameters stored in `self.ppo_cfg` (ppo.py lines 103-111). -/
structure PPOCfg where
  clip_range : ℝ
  ppo_epochs : ℕ
  mini_batch_size : MBSize
  vf_lambda : ℝ
  entropy_lambda : ℝ
  normalize_adv : Bool
  max_grad_norm : Option ℝ

/-- `PPO.__init__`: only the `mini_batch_size` field is validated; every
other hyperparameter is stored as given.  The `Bool` records whether a
warning was emitted. -/
def initPPOCfg (c : PPOCfg) : PPOCfg × Bool :=
  let v := validateMiniBatchSize c.mini_batch_size
  ({ c with mini_batch_size := v.1 }, v.2)

/-- Python `int(x)` on a float: truncation toward zero. -/
def pyInt (q : ℚ) : ℤ := if 0 ≤ q then Int.floor q else Int.ceil q

/-- The `mini_batch_size` inference at the start of the training branch of
`shared_step` (ppo.py lines 140-145): a float is multiplied by the batch
size and truncated to an int, an int is used as is, and any other type
raises `ValueError`. -/
def rawMiniBatchSize : MBSize → ℕ → Except String ℤ
  | MBSize.frac q, bs => Except.ok (pyInt (bs * q))
  | MBSize.int n, _ => Except.ok n
  | MBSize.other _, _ => Except.error "mini_batch_size must be an integer or a float."

/-- The clamp at ppo.py lines 147-148: `if mini_batch_size > batch_size:
mini_batch_size = batch_size`. -/
def clampToBatch (m : ℤ) (bs : ℕ) : ℤ := if (bs : ℤ) < m then (bs : ℤ) else m

/-- The minibatch size actually handed to the `DataLoader`: the inferred
size clamped to the batch size. -/
def effMiniBatchSize (mbs : MBSize) (bs : ℕ) : Except String ℤ :=
  Except.map (fun m => clampToBatch m bs) (rawMiniBatchSize mbs bs)

theorem clampToBatch_le (m : ℤ) (bs : ℕ) : clampToBatch m bs ≤ (bs : ℤ) := by
  unfold clampToBatch
  split
  · exact le_refl _
  · omega

/-! ## The DataLoader partition model

`torch.utils.data.DataLoader` with `shuffle=True` and `drop_last` left at
`False` yields, on each iteration pass, the successive size-`m` chunks of a
fresh permutation of the dataset indices (the last chunk possibly smaller),
and its construction raises `ValueError` when the batch size is not a
positive integer.  The permutation itself is a nondeterministic input here;
theorems quantify over it. -/

/-- Fuel-indexed chunking so that the definition is structural (and hence
evaluates by kernel reduction). -/
def chunksF {α : Type} : ℕ → ℕ → List α → List (List α)
  | 0, _, _ => []
  | _, _, [] => []
  | Nat.succ f, m, x :: tl => (x :: tl).take m :: chunksF f m ((x :: tl).drop m)

/-- Split a list into successive chunks of length `m` (the last chunk
possibly shorter). -/
def chunks {α : Type} (m : ℕ) (xs : List α) : List (List α) := chunksF xs.length m xs

theorem chunksF_nil {α : Type} (f m : ℕ) : chunksF f m ([] : List α) = [] := by
  cases f <;> rfl

theorem chunksF_fuel {α : Type} :
    ∀ (f g m : ℕ) (xs : List α), 0 < m → xs.length ≤ f → xs.length ≤ g →
      chunksF f m xs = chunksF g m xs := by
  intro f
  induction f with
  | zero =>
      intro g m xs _ hf _
      have hxs : xs = [] := List.eq_nil_of_length_eq_zero (Nat.le_zero.mp hf)
      subst hxs
      rw [chunksF_nil, chunksF_nil]
  | succ f ih =>
      intro g m xs hm hf hg
      cases xs with
      | nil => rw [chunksF_nil, chunksF_nil]
      | cons x tl =>
          cases g with
          | zero => simp at hg
          | succ g =>
              simp only [chunksF]
              congr 1
              apply ih
              · exact hm
              · simp only [List.length_drop, List.length_cons]
                simp only [List.length_cons] at hf
                omega
              · simp only [List.length_drop, List.length_cons]
                simp only [List.length_cons] at hg
                omega

theorem chunks_nil {α : Type} (m : ℕ) : chunks m ([] : List α) = [] := rfl

theorem chunks_cons {α : Type} (m : ℕ) (hm : 0 < m) (x : α) (tl : List α) :
    chunks m (x :: tl) = (x :: tl).take m :: chunks m ((x :: tl).drop m) := by
  unfold chunks
  simp only [List.length_cons, chunksF]
  congr 1
  apply chunksF_fuel
  · exact hm
  · simp only [List.length_drop, List.length_cons]
    omega
  · exact le_refl _

/-- With a positive chunk size, the chunks concatenate back to the whole
list: the partition covers every element exactly once, in order. -/
theorem chunks_flatten {α : Type} (m : ℕ) (hm : 0 < m) :
    ∀ xs : List α, (chunks m xs).flatten = xs
  | [] => by rw [chunks_nil]; rfl
  | x :: tl => by
      rw [chunks_cons m hm x tl]
      have ih := chunks_flatten m hm ((x :: tl).drop m)
      simp only [List.flatten_cons, ih]
      exact List.take_append_drop m (x :: tl)
termination_by xs => xs.length
decreasing_by
  simp only [List.length_drop, List.length_cons]
  omega

/-- Every chunk has at most `m` elements. -/
theorem chunks_mem_length {α : Type} (m : ℕ) (hm : 0 < m) :
    ∀ (xs : List α), ∀ c ∈ chunks m xs, c.length ≤ m
  | [] => by rw [chunks_nil]; intro c hc; cases hc
  | x :: tl => by
      rw [chunks_cons m hm x tl]
      intro c hc
      rcases List.mem_cons.mp hc with h | h
      · subst h
        simp only [List.length_take]
        omega
      · exact chunks_mem_length m hm ((x :: tl).drop m) c h
termination_by xs => xs.length
decreasing_by
  simp only [List.length_drop, List.length_cons]
  omega

/-- Chunk size equal to the (positive) list length yields exactly one
chunk. -/
theorem chunks_full {α : Type} (xs : List α) (hx : xs ≠ []) :
    (chunks xs.length xs).length = 1 := by
  cases xs with
  | nil => exact absurd rfl hx
  | cons x tl =>
      rw [chunks_cons _ (by simp) x tl]
      have hdrop : (x :: tl).drop (x :: tl).length = [] := List.drop_length _
      rw [hdrop, chunks_nil]
      rfl

/-- Modelled from torch: constructing a `DataLoader` (via `BatchSampler`)
with a non-positive batch size raises `ValueError`; otherwise one pass
yields the successive chunks of the given (shuffled) index order. -/
def dataLoaderBatches {α : Type} (m : ℤ) (xs : List α) : Except String (List (List α)) :=
  if m ≤ 0 then Except.error "batch_size should be a positive integer value"
  else Except.ok (chunks m.toNat xs)

/-! ## Tensor helpers -/

/-- Pointwise triple zip, used to state the spec-side surrogate formula
index-wise. -/
def zip3With {α β γ δ : Type} (f : α → β → γ → δ) : List α → List β → List γ → List δ
  | a :: as, b :: bs, c :: cs => f a b c :: zip3With f as bs cs
  | _, _, _ => []

noncomputable section

/-- `Tensor.mean()` on a one-scalar-per-instance tensor. -/
def tmean (xs : List ℝ) : ℝ := xs.sum / xs.length

/-- `torch.clamp(x, lo, hi)`: apply the lower bound, then the upper bound. -/
def tclamp (x lo hi : ℝ) : ℝ := min (max x lo) hi

/-- `Tensor.std()` with the torch default correction 1: the unbiased sample
variance. -/
def sampleVar (xs : List ℝ) : ℝ :=
  (xs.map (fun x => (x - tmean xs) ^ 2)).sum / ((xs.length : ℝ) - 1)

/-- `Tensor.std()`: square root of the unbiased sample variance. -/
def sampleStd (xs : List ℝ) : ℝ := Real.sqrt (sampleVar xs)

/-- Elementwise `F.huber_loss` with the torch default `delta = 1.0`. -/
def huber1 (pred target : ℝ) : ℝ :=
  if |pred - target| < 1 then (pred - target) ^ 2 / 2 else |pred - target| - 1 / 2

/-- `F.huber_loss(pred, target)` with default mean reduction. -/
def huberLoss (pred target : List ℝ) : ℝ := tmean (List.zipWith huber1 pred target)

/-! ## Surrogate loss engine (ppo.py lines 167-209)

One minibatch of `n` instances is embedded by four lists of length `n`:
the stored old log-probabilities (`sub_td["logprobs"]`), the stored
rewards (`sub_td["reward"]`), the per-step log-probabilities of the stored
actions under the current policy (`out["log_likelihood"]`, a list per
instance since `return_sum_log_likelihood=False`), and the critic values. -/

/-- The output of the policy network when scoring a given action sequence
(`return_entropy=True`, `return_sum_log_likelihood=False`). -/
structure PolicyOut where
  ll : List (List ℝ)
  entropy : List ℝ
  reward : List ℝ

/-- ppo.py line 178: `ratio = torch.exp(ll.sum(dim=-1) - sub_td["logprobs"])`,
one value per instance.  The exponential is applied to the raw difference;
nothing is clamped here. -/
def ratiosOf (ll : List (List ℝ)) (oldLP : List ℝ) : List ℝ :=
  List.zipWith (fun l o => Real.exp (l.sum - o)) ll oldLP

/-- ppo.py line 184: `adv = previous_reward - value_pred.detach()`
(value level). -/
def rawAdv (rewards vpred : List ℝ) : List ℝ :=
  List.zipWith (fun r v => r - v) rewards vpred

/-- ppo.py line 188: `adv = (adv - adv.mean()) / (adv.std() + 1e-8)`. -/
def normalizeAdv (adv : List ℝ) : List ℝ :=
  adv.map (fun a => (a - tmean adv) / (sampleStd adv + 1e-8))

/-- The advantage actually fed into the surrogate loss: normalized exactly
when `normalize_adv` is set (ppo.py lines 187-188). -/
def advantageUsed (normalize : Bool) (rewards vpred : List ℝ) : List ℝ :=
  let adv := rawAdv rewards vpred
  if normalize then normalizeAdv adv else adv

/-- ppo.py lines 191-199: the clipped-surrogate loss.  `torch.min` of the
unclipped term `ratio * adv` and the clipped term `clamp(ratio, 1-ε, 1+ε) * adv`,
mean-reduced and negated. -/
def surrogateOf (eps : ℝ) (ratios adv : List ℝ) : ℝ :=
  -(tmean (List.zipWith
      (fun r a => min (r * a) (tclamp r (1 - eps) (1 + eps) * a)) ratios adv))

/-- The per-minibatch loss bundle (the Python locals `surrogate_loss`,
`value_loss`, `entropy.mean()`, `loss`). -/
structure LossComps where
  surrogate : ℝ
  value : ℝ
  entropyMean : ℝ
  total : ℝ

/-- The full per-minibatch loss computation of `shared_step`
(ppo.py lines 167-209). -/
def minibatchLoss (cfg : PPOCfg) (oldLP rewards : List ℝ) (pout : PolicyOut)
    (vpred : List ℝ) : LossComps :=
  let ratios := ratiosOf pout.ll oldLP
  let adv := advantageUsed cfg.normalize_adv rewards vpred
  let s := surrogateOf cfg.clip_range ratios adv
  let v := huberLoss vpred rewards
  let e := tmean pout.entropy
  ⟨s, v, e, s + cfg.vf_lambda * v - cfg.entropy_lambda * e⟩

/-- Modelled from the spec words: `surrogate_loss = -mean( min( ratio *
advantage, clip(ratio, 1-clip_range, 1+clip_range) * advantage ) )` with
`ratio = exp(new_log_prob - old_log_prob)` computed per instance, and the
clamp applied only inside the second term. -/
def specSurrogateLoss (eps : ℝ) (newLL : List (List ℝ)) (oldLP adv : List ℝ) : ℝ :=
  -(tmean (zip3With
      (fun l o a =>
        min (Real.exp (l.sum - o) * a)
            (tclamp (Real.exp (l.sum - o)) (1 - eps) (1 + eps) * a))
      newLL oldLP adv))

/-! ## Detachment (forward-mode model of autograd)

A scalar together with its derivative along an arbitrary direction in
critic-parameter space.  `Tensor.detach()` keeps the value and severs the
derivative. -/

/-- A scalar with its directional derivative with respect to the critic
parameters. -/
structure Dual where
  val : ℝ
  grad : ℝ

/-- `Tensor.detach()`: same value, no gradient. -/
def detach (x : Dual) : Dual := ⟨x.val, 0⟩

/-- Subtraction of dual numbers. -/
def dsub (x y : Dual) : Dual := ⟨x.val - y.val, x.grad - y.grad⟩

/-- ppo.py line 184 on duals: `adv = previous_reward - value_pred.detach()`. -/
def advDual (reward vpred : Dual) : Dual := dsub reward (detach vpred)

/-! ## `shared_step` (ppo.py lines 128-235)

The policy, critic and optimizer are external collaborators; they are
embedded as opaque functions of an abstract parameter state `T`.  `score`
is the policy called on the stored actions of a minibatch (given by the
instance indices), `criticOf` the critic value head, and `optStep` the
effect on the parameters of one `zero_grad`/`backward`/`clip`/`step`
cycle on a minibatch.  `oldLogprobs` and `reward` are the rollout data
stored into the TensorDict before the inner loop (ppo.py lines 151-153). -/

/-- The Lightning phase passed to `shared_step`. -/
inductive Phase where
  | train : Phase
  | validation : Phase
  | test : Phase
deriving DecidableEq

/-- Modelled from the spec: the policy, critic and optimizer collaborators
(their implementations live outside this module).  Per the stated call
contract, the policy in score-only mode returns the log-likelihood and
entropy of a GIVEN action sequence together with the realized reward, the
critic returns one value estimate per instance, and an optimizer step
deterministically transforms the shared parameter state. -/
structure TrainEnv (T : Type) where
  score : T → List ℕ → PolicyOut
  criticOf : T → List ℕ → List ℝ
  optStep : T → List ℕ → T
  oldLogprobs : ℕ → ℝ
  reward : ℕ → ℝ

/-- One iteration of the inner loop body (ppo.py lines 165-223): score the
minibatch under the current parameters, compute the loss bundle, take one
optimizer step.  The `Option` accumulator holds the Python locals
(`loss`, `surrogate_loss`, `value_loss`, `entropy`, `out`) left behind by
the most recent iteration. -/
def innerStep {T : Type} (env : TrainEnv T) (cfg : PPOCfg)
    (acc : T × Option (LossComps × PolicyOut)) (mb : List ℕ) :
    T × Option (LossComps × PolicyOut) :=
  let pout := env.score acc.1 mb
  let vpred := env.criticOf acc.1 mb
  let comps := minibatchLoss cfg (mb.map env.oldLogprobs) (mb.map env.reward) pout vpred
  (env.optStep acc.1 mb, some (comps, pout))

/-- What `shared_step` returns and logs: the final parameter state, the
returned `loss` entry, the mean of the `reward` entry of the final `out`
dict, and the loss components put into `out` after the loop (absent for
non-training phases). -/
structure StepOut (T : Type) where
  params : T
  loss : Option ℝ
  metricReward : ℝ
  metricComps : Option LossComps

/-- The minibatch sequence processed by the K-epoch inner loop: for each
inner epoch, the chunks of the fresh shuffle of that epoch (the `DataLoader`
reshuffles on every iteration pass). -/
def trainBatches (cfg : PPOCfg) (m : ℤ) (perms : ℕ → List ℕ) : List (List ℕ) :=
  (List.range cfg.ppo_epochs).flatMap (fun k => chunks m.toNat (perms k))

/-- The double inner loop of ppo.py lines 164-223, folded over the
flattened minibatch sequence. -/
def runInner {T : Type} (env : TrainEnv T) (cfg : PPOCfg) (p0 : T)
    (seq : List (List ℕ)) : T × Option (LossComps × PolicyOut) :=
  seq.foldl (innerStep env cfg) (p0, none)

/-- ppo.py lines 225-235 for the training phase: `out.update({...})` reads
the Python locals left by the last loop iteration — a `NameError` if the
loop body never ran — and the step returns the loss of the last minibatch and
logs the mean of the last `out["reward"]`.  The mean reduction of each
logged tensor is modelled from the spec, which delegates metric
presentation to the external harness. -/
def finishTrain {T : Type} (r : T × Option (LossComps × PolicyOut)) :
    Except String (StepOut T) :=
  match r with
  | (p1, some (comps, pout)) =>
      Except.ok ⟨p1, some comps.total, tmean pout.reward, some comps⟩
  | (_, none) => Except.error "NameError: name loss is not defined"

/-- `PPO.shared_step`.  For the training phase: infer and clamp the
minibatch size (raising for unsupported types), build the `DataLoader`
(raising for a non-positive batch size), run the K-epoch inner loop over
the per-epoch shuffles `perms`, and report from the locals of the last
iteration.  For every other phase: no loop, no parameter change, metrics
from the no-grad rollout, and a `None` loss. -/
def sharedStep {T : Type} (env : TrainEnv T) (cfg : PPOCfg) (phase : Phase)
    (p0 : T) (instances : List ℕ) (perms : ℕ → List ℕ) : Except String (StepOut T) :=
  if phase = Phase.train then
    match rawMiniBatchSize cfg.mini_batch_size instances.length with
    | Except.error e => Except.error e
    | Except.ok m0 =>
        if clampToBatch m0 instances.length ≤ 0 then
          Except.error "batch_size should be a positive integer value"
        else
          finishTrain (runInner env cfg p0
            (trainBatches cfg (clampToBatch m0 instances.length) perms))
  else
    Except.ok ⟨p0, none, tmean (instances.map env.reward), none⟩

/-- The constructor defaults of `PPO.__init__` (ppo.py lines 67-73). -/
def defaultPPOCfg : PPOCfg :=
  ⟨1/5, 2, MBSize.frac (1/4), 1/2, 0, false, some (1/2)⟩

/-! ## Concrete fixtures used by witnesses and counterexamples -/

/-- A two-instance rollout reward: instance 0 earns 0, instance 1 earns 2. -/
def cRewardAt (i : ℕ) : ℝ := if i = 1 then 2 else 0

/-- A concrete collaborator bundle over trivial (`Unit`) parameters.  The
score of a stored action sequence under the policy reproduces the stored reward
(the environment is deterministic), reports one decoding step with
log-probability 0, and entropy 0; the critic predicts 0. -/
def cEnv : TrainEnv Unit where
  score := fun _ mb => ⟨mb.map (fun _ => ([0] : List ℝ)), mb.map (fun _ => (0 : ℝ)), mb.map cRewardAt⟩
  criticOf := fun _ mb => mb.map (fun _ => (0 : ℝ))
  optStep := fun _ _ => ()
  oldLogprobs := fun _ => 0
  reward := cRewardAt

/-- A concrete configuration: one inner epoch, integer minibatch size 1. -/
def cCfg : PPOCfg := ⟨1/5, 1, MBSize.int 1, 1/2, 0, false, some (1/2)⟩

end

/-! ## C6: constructor-time validation -/

/-- C6: at construction, a fractional `mini_batch_size` outside (0, 1] is
replaced by the default fraction 0.25 with a warning, an integer ≤ 0 is
replaced by the default integer 128 with a warning, no error is raised in
either case (the validator is a total function), and no other
hyperparameter field is range-checked: every other field of the
configuration is stored unchanged, whatever its value. -/
theorem C6_init_validation :
    ∀ (c : PPOCfg) (q : ℚ) (n : ℤ),
      ((initPPOCfg c).1.clip_range = c.clip_range ∧
       (initPPOCfg c).1.ppo_epochs = c.ppo_epochs ∧
       (initPPOCfg c).1.vf_lambda = c.vf_lambda ∧
       (initPPOCfg c).1.entropy_lambda = c.entropy_lambda ∧
       (initPPOCfg c).1.normalize_adv = c.normalize_adv ∧
       (initPPOCfg c).1.max_grad_norm = c.max_grad_norm) ∧
      ((q ≤ 0 ∨ 1 < q) →
        initPPOCfg { c with mini_batch_size := MBSize.frac q } =
          ({ c with mini_batch_size := MBSize.frac (1/4) }, true)) ∧
      (n ≤ 0 →
        initPPOCfg { c with mini_batch_size := MBSize.int n } =
          ({ c with mini_batch_size := MBSize.int 128 }, true)) := by
  intro c q n
  refine ⟨⟨rfl, rfl, rfl, rfl, rfl, rfl⟩, ?_, ?_⟩
  · intro h
    simp only [initPPOCfg, validateMiniBatchSize, if_pos h]
  · intro h
    simp only [initPPOCfg, validateMiniBatchSize, if_pos h]

/-- Witness for C6 at the documented inputs 1.5 (out-of-range fraction)
and 0 (non-positive integer). -/
theorem C6_init_validation_witness :
    initPPOCfg { defaultPPOCfg with mini_batch_size := MBSize.frac (3/2) } =
      ({ defaultPPOCfg with mini_batch_size := MBSize.frac (1/4) }, true) ∧
    initPPOCfg { defaultPPOCfg with mini_batch_size := MBSize.int 0 } =
      ({ defaultPPOCfg with mini_batch_size := MBSize.int 128 }, true) :=
  ⟨(C6_init_validation defaultPPOCfg (3/2) 0).2.1 (by norm_num),
   (C6_init_validation defaultPPOCfg (3/2) 0).2.2 le_rfl⟩

/-! ## C7: unsupported `mini_batch_size` type -/

/-- C7: if `mini_batch_size` has an unsupported type (neither integer nor
float), the training step raises `ValueError` immediately — whatever the
rest of the configuration, the parameters, the batch and the shuffles —
with no substitution or recovery. -/
theorem C7_unsupported_type_raises :
    ∀ (T : Type) (env : TrainEnv T) (cfg : PPOCfg) (s : String) (p0 : T)
      (instances : List ℕ) (perms : ℕ → List ℕ),
      sharedStep env { cfg with mini_batch_size := MBSize.other s } Phase.train
          p0 instances perms =
        Except.error "mini_batch_size must be an integer or a float." := by
  intro T env cfg s p0 instances perms
  rfl

/-! ## C9: fractional size can resolve to zero -/

/-- C9: with a fractional `mini_batch_size`, the effective size is
`int(batch_size * fraction)`, which is 0 whenever `batch_size * fraction
< 1`; in particular the default fraction 0.25 passes construction-time
validation unchanged, yet on a batch of 2 instances it resolves to 0 —
the resolved size is not guaranteed positive. -/
theorem C9_fractional_resolves_to_zero :
    (∀ (bs : ℕ) (q : ℚ), 0 ≤ q → (bs : ℚ) * q < 1 →
        effMiniBatchSize (MBSize.frac q) bs = Except.ok 0) ∧
    validateMiniBatchSize (MBSize.frac (1/4)) = (MBSize.frac (1/4), false) ∧
    effMiniBatchSize (MBSize.frac (1/4)) 2 = Except.ok 0 := by
  refine ⟨?_, ?_, ?_⟩
  · intro bs q hq hlt
    have hnn : 0 ≤ (bs : ℚ) * q := mul_nonneg (by positivity) hq
    have hfloor : Int.floor ((bs : ℚ) * q) = 0 := by
      rw [Int.floor_eq_zero_iff]
      exact ⟨hnn, hlt⟩
    simp only [effMiniBatchSize, rawMiniBatchSize, pyInt, if_pos hnn, hfloor,
      Except.map, clampToBatch]
    norm_num
  · simp only [validateMiniBatchSize]
    norm_num
  · have hfloor : Int.floor ((2 : ℚ) * (1/4)) = 0 := by norm_num
    simp only [effMiniBatchSize, rawMiniBatchSize, pyInt, Except.map, clampToBatch]
    norm_num [hfloor]

/-- Witness for C9 at batch size 2 with the default fraction. -/
theorem C9_fractional_resolves_to_zero_witness :
    effMiniBatchSize (MBSize.frac (1/4)) 2 = Except.ok 0 :=
  C9_fractional_resolves_to_zero.1 2 (1/4) (by norm_num) (by norm_num)

/-! ## C10: non-training phases -/

/-- C10: for every phase other than `train`, `shared_step` runs no inner
loop and no optimizer step: the parameters are returned unchanged, the
returned loss is `None`, and the metrics contain only the no-grad rollout
evaluation (here, its mean reward). -/
theorem C10_eval_phase_no_update :
    ∀ (T : Type) (env : TrainEnv T) (cfg : PPOCfg) (phase : Phase) (p0 : T)
      (instances : List ℕ) (perms : ℕ → List ℕ),
      phase ≠ Phase.train →
      sharedStep env cfg phase p0 instances perms =
        Except.ok ⟨p0, none, tmean (instances.map env.reward), none⟩ := by
  intro T env cfg phase p0 instances perms h
  unfold sharedStep
  rw [if_neg h]

/-- Witness for C10 at the validation phase on a concrete two-instance
batch: parameters unchanged, loss `None`, metric reward 1 (the rollout
mean). -/
theorem C10_eval_phase_no_update_witness :
    sharedStep cEnv cCfg Phase.validation () [0, 1] (fun _ => [0, 1]) =
      Except.ok ⟨(), none, 1, none⟩ := by
  rw [C10_eval_phase_no_update Unit cEnv cCfg Phase.validation () [0, 1]
    (fun _ => [0, 1]) (by decide)]
  norm_num [cEnv, cRewardAt, tmean]

/-! ## C1: the clipped-surrogate formula -/

theorem zipWith_zipWith_left_eq_zip3With {α β γ δ ε' : Type}
    (f : α → β → γ) (g : γ → δ → ε') :
    ∀ (as : List α) (bs : List β) (ds : List δ),
      List.zipWith g (List.zipWith f as bs) ds =
        zip3With (fun a b d => g (f a b) d) as bs ds := by
  intro as
  induction as with
  | nil => intro bs ds; cases bs <;> cases ds <;> rfl
  | cons a as ih =>
      intro bs ds
      cases bs with
      | nil => cases ds <;> rfl
      | cons b bs =>
          cases ds with
          | nil => rfl
          | cons d ds => simp only [List.zipWith_cons_cons, zip3With, ih]

/-- C1: for every minibatch, the surrogate loss computed by the code is
the negated mean over instances of `min(ratio * advantage, clamp(ratio,
1 - clip_range, 1 + clip_range) * advantage)`, with `ratio = exp(
new_log_prob - old_log_prob)` computed per instance from the current
per-step, summed log-probability of the stored action sequence under the
current policy
and the stored old log-probability; only the second term clamps the
ratio, the first uses the raw exponential (see `specSurrogateLoss`). -/
theorem C1_surrogate_is_clipped_objective :
    ∀ (cfg : PPOCfg) (oldLP rewards : List ℝ) (pout : PolicyOut) (vpred : List ℝ),
      (minibatchLoss cfg oldLP rewards pout vpred).surrogate =
        specSurrogateLoss cfg.clip_range pout.ll oldLP
          (advantageUsed cfg.normalize_adv rewards vpred) := by
  intro cfg oldLP rewards pout vpred
  show surrogateOf cfg.clip_range (ratiosOf pout.ll oldLP)
      (advantageUsed cfg.normalize_adv rewards vpred) = _
  unfold surrogateOf specSurrogateLoss ratiosOf
  rw [zipWith_zipWith_left_eq_zip3With]

/-! ## C2: advantage, detachment and normalization -/

theorem sum_map_sub_const (l : List ℝ) (c : ℝ) :
    (l.map (fun x => x - c)).sum = l.sum - l.length * c := by
  induction l with
  | nil => simp
  | cons a tl ih =>
      simp only [List.map_cons, List.sum_cons, ih, List.length_cons]
      push_cast
      ring

theorem sum_map_div_const (l : List ℝ) (c : ℝ) :
    (l.map (fun x => x / c)).sum = l.sum / c := by
  induction l with
  | nil => simp
  | cons a tl ih => simp only [List.map_cons, List.sum_cons, ih, add_div]

theorem normalizeAdv_sum_eq_zero (adv : List ℝ) : (normalizeAdv adv).sum = 0 := by
  unfold normalizeAdv
  have h1 : adv.map (fun a => (a - tmean adv) / (sampleStd adv + 1e-8)) =
      (adv.map (fun a => a - tmean adv)).map (fun x => x / (sampleStd adv + 1e-8)) := by
    rw [List.map_map]
    rfl
  rw [h1, sum_map_div_const, sum_map_sub_const]
  rcases eq_or_ne (adv.length : ℝ) 0 with h | h
  · have hlen : adv.length = 0 := by exact_mod_cast h
    have hnil : adv = [] := List.eq_nil_of_length_eq_zero hlen
    subst hnil
    simp
  · unfold tmean
    rw [mul_comm, div_mul_cancel₀ _ h, sub_self, zero_div]

/-- C2: the advantage is the stored reward minus the critic value with the
critic output detached — on the forward-mode gradient model, the
derivative of the advantage along any critic-parameter direction is 0, so
no gradient reaches the critic through the advantage path — and, with
normalization enabled, the advantage is standardized over the minibatch:
centered at its mean (the normalized advantage has mean exactly 0) and
divided by its sample standard deviation plus the epsilon 1e-8. -/
theorem C2_advantage_detached_and_normalized :
    (∀ r v g : ℝ,
      (advDual ⟨r, 0⟩ ⟨v, g⟩).val = r - v ∧ (advDual ⟨r, 0⟩ ⟨v, g⟩).grad = 0) ∧
    (∀ rewards vpred : List ℝ,
      advantageUsed false rewards vpred =
        List.zipWith (fun r v => r - v) rewards vpred) ∧
    (∀ rewards vpred : List ℝ,
      advantageUsed true rewards vpred =
        (rawAdv rewards vpred).map
          (fun a => (a - tmean (rawAdv rewards vpred)) /
            (sampleStd (rawAdv rewards vpred) + 1e-8))) ∧
    (∀ adv : List ℝ, tmean (normalizeAdv adv) = 0) := by
  refine ⟨?_, fun _ _ => rfl, fun _ _ => rfl, ?_⟩
  · intro r v g
    constructor
    · simp [advDual, dsub, detach]
    · simp [advDual, dsub, detach]
  · intro adv
    unfold tmean
    rw [normalizeAdv_sum_eq_zero, zero_div]

/-! ## C3: value loss and total loss -/

theorem huber1_nonneg (p t : ℝ) : 0 ≤ huber1 p t := by
  unfold huber1
  split
  · positivity
  · rename_i h
    rw [not_lt] at h
    linarith

theorem tmean_nonneg_of_nonneg (l : List ℝ) (h : ∀ x ∈ l, 0 ≤ x) : 0 ≤ tmean l := by
  unfold tmean
  exact div_nonneg (List.sum_nonneg h) (Nat.cast_nonneg _)

theorem zipWith_huber1_nonneg :
    ∀ (a b : List ℝ), ∀ x ∈ List.zipWith huber1 a b, 0 ≤ x := by
  intro a
  induction a with
  | nil => intro b x hx; simp at hx
  | cons p tl ih =>
      intro b x hx
      cases b with
      | nil => simp at hx
      | cons t tb =>
          rw [List.zipWith_cons_cons] at hx
          rcases List.mem_cons.mp hx with h | h
          · subst h; exact huber1_nonneg p t
          · exact ih tb x h

theorem huberLoss_nonneg (pred target : List ℝ) : 0 ≤ huberLoss pred target :=
  tmean_nonneg_of_nonneg _ (zipWith_huber1_nonneg pred target)

/-- C3: for every minibatch, the value loss is the Huber loss between the
critic prediction and the stored reward (hence non-negative), and the
single backpropagated total loss is `surrogate_loss + value_loss_weight *
value_loss - entropy_bonus_weight * mean(entropy)`, with the entropy term
subtracted. -/
theorem C3_value_loss_and_total_loss :
    ∀ (cfg : PPOCfg) (oldLP rewards : List ℝ) (pout : PolicyOut) (vpred : List ℝ),
      (minibatchLoss cfg oldLP rewards pout vpred).value = huberLoss vpred rewards ∧
      0 ≤ (minibatchLoss cfg oldLP rewards pout vpred).value ∧
      (minibatchLoss cfg oldLP rewards pout vpred).total =
        (minibatchLoss cfg oldLP rewards pout vpred).surrogate +
          cfg.vf_lambda * (minibatchLoss cfg oldLP rewards pout vpred).value -
          cfg.entropy_lambda * tmean pout.entropy := by
  intro cfg oldLP rewards pout vpred
  exact ⟨rfl, huberLoss_nonneg vpred rewards, rfl⟩

/-! ## C8: degenerate surrogate cases -/

theorem tclamp_one_of_nonneg (eps : ℝ) (h : 0 ≤ eps) :
    tclamp 1 (1 - eps) (1 + eps) = 1 := by
  unfold tclamp
  rw [max_eq_left (by linarith), min_eq_left (by linarith)]

theorem ratiosOf_eq_replicate_one {ll : List (List ℝ)} {oldLP : List ℝ}
    (h : List.Forall₂ (fun (l : List ℝ) (o : ℝ) => l.sum = o) ll oldLP) :
    ratiosOf ll oldLP = List.replicate oldLP.length 1 := by
  induction h with
  | nil => rfl
  | cons hpair htail ih =>
      simp only [ratiosOf] at ih ⊢
      simp only [List.zipWith_cons_cons, List.length_cons, List.replicate_succ]
      rw [hpair, sub_self, Real.exp_zero, ih]

theorem zipWith_min_replicate_one (eps : ℝ) (h : 0 ≤ eps) :
    ∀ (adv : List ℝ),
      List.zipWith (fun r a => min (r * a) (tclamp r (1 - eps) (1 + eps) * a))
        (List.replicate adv.length 1) adv = adv := by
  intro adv
  induction adv with
  | nil => rfl
  | cons a tl ih =>
      simp only [List.length_cons, List.replicate_succ, List.zipWith_cons_cons, ih]
      rw [tclamp_one_of_nonneg eps h, one_mul, min_self]

theorem zipWith_min_zero_adv (eps : ℝ) :
    ∀ (ratios adv : List ℝ), (∀ a ∈ adv, a = 0) →
      (List.zipWith (fun r a => min (r * a) (tclamp r (1 - eps) (1 + eps) * a))
        ratios adv).sum = 0 := by
  intro ratios
  induction ratios with
  | nil => intro adv _; rfl
  | cons r tr ih =>
      intro adv hadv
      cases adv with
      | nil => rfl
      | cons a ta =>
          have ha : a = 0 := hadv a (List.mem_cons_self a ta)
          have hta : ∀ x ∈ ta, x = 0 := fun x hx => hadv x (List.mem_cons_of_mem a hx)
          rw [List.zipWith_cons_cons, List.sum_cons, ha, ih ta hta]
          simp

/-- C8: when every per-instance ratio equals 1 (new and old
log-probabilities of the stored actions agree) and the clip range is
non-negative, the surrogate loss is exactly `-mean(advantage)` for
advantages of any sign; and when the advantage is 0 everywhere, the
surrogate loss is 0 regardless of the ratio values. -/
theorem C8_surrogate_degenerate_cases :
    (∀ (eps : ℝ) (ll : List (List ℝ)) (oldLP adv : List ℝ),
        0 ≤ eps →
        List.Forall₂ (fun (l : List ℝ) (o : ℝ) => l.sum = o) ll oldLP →
        oldLP.length = adv.length →
        surrogateOf eps (ratiosOf ll oldLP) adv = -(tmean adv)) ∧
    (∀ (eps : ℝ) (ratios adv : List ℝ),
        (∀ a ∈ adv, a = 0) →
        surrogateOf eps ratios adv = 0) := by
  constructor
  · intro eps ll oldLP adv heps hall hlen
    unfold surrogateOf
    rw [ratiosOf_eq_replicate_one hall, hlen, zipWith_min_replicate_one eps heps]
  · intro eps ratios adv hadv
    unfold surrogateOf
    unfold tmean
    rw [zipWith_min_zero_adv eps ratios adv hadv, zero_div, neg_zero]

/-- Witness for C8: a one-instance minibatch with identical old and new
log-probabilities and advantage 2, and a minibatch with zero advantage
under ratios 3 and 4. -/
theorem C8_surrogate_degenerate_cases_witness :
    surrogateOf 0 (ratiosOf [[(1 : ℝ)]] [1]) [2] = -(tmean [2]) ∧
    surrogateOf (1/5) [(3 : ℝ), 4] [0, 0] = 0 := by
  constructor
  · exact C8_surrogate_degenerate_cases.1 0 [[1]] [1] [2] le_rfl
      (List.Forall₂.cons (by simp) List.Forall₂.nil) rfl
  · refine C8_surrogate_degenerate_cases.2 (1/5) [3, 4] [0, 0] ?_
    intro a ha
    simpa using ha

/-! ## C4: the minibatch partition -/

/-- Counterexample to C4 as stated: the default fractional configuration
0.25 passes construction-time validation, yet on a rollout batch of 2
instances the effective minibatch size resolves to 0, the `DataLoader`
construction raises instead of producing any partition, and the whole
training step errors out — so it is not true that for every valid
configuration and rollout batch the epoch partition covers the batch. -/
theorem C4_counterexample :
    validateMiniBatchSize (MBSize.frac (1/4)) = (MBSize.frac (1/4), false) ∧
    effMiniBatchSize (MBSize.frac (1/4)) 2 = Except.ok 0 ∧
    dataLoaderBatches (0 : ℤ) ([0, 1] : List ℕ) =
      Except.error "batch_size should be a positive integer value" ∧
    sharedStep cEnv { cCfg with mini_batch_size := MBSize.frac (1/4) } Phase.train ()
        [0, 1] (fun _ => [0, 1]) =
      Except.error "batch_size should be a positive integer value" := by
  have hval : validateMiniBatchSize (MBSize.frac (1/4)) = (MBSize.frac (1/4), false) := by
    simp only [validateMiniBatchSize]
    norm_num
  have hraw : rawMiniBatchSize (MBSize.frac (1/4)) 2 = Except.ok 0 := by
    simp only [rawMiniBatchSize, pyInt]
    norm_num
  have heff : effMiniBatchSize (MBSize.frac (1/4)) 2 = Except.ok 0 := by
    rw [effMiniBatchSize, hraw]
    simp [Except.map, clampToBatch]
  refine ⟨hval, heff, by rw [dataLoaderBatches, if_pos le_rfl], ?_⟩
  show sharedStep cEnv { cCfg with mini_batch_size := MBSize.frac (1/4) } Phase.train ()
      [0, 1] (fun _ => [0, 1]) = _
  unfold sharedStep
  rw [if_pos rfl]
  have h2 : ([0, 1] : List ℕ).length = 2 := rfl
  rw [h2, hraw]
  rfl

/-- C4 as amended: for every configuration and rollout batch *whose
effective minibatch size is positive* (fractional configurations can
resolve to 0 on small batches, in which case the loader raises instead),
the effective size is clamped to at most the batch size, the minibatch
partition of each inner epoch (over a shuffle of the batch) covers the full
batch exactly once with no overlaps (its concatenation is a permutation
of the batch indices) in chunks of at most the effective size, and
effective size equal to the (positive) batch size yields exactly one
minibatch. -/
theorem C4_partition_amended :
    ∀ (mbs : MBSize) (bs : ℕ) (m : ℤ),
      effMiniBatchSize mbs bs = Except.ok m →
      m ≤ (bs : ℤ) ∧
      ∀ (idx perm : List ℕ), idx.Perm perm → perm.length = bs →
        (0 < m → ((chunks m.toNat perm).flatten.Perm idx ∧
                  ∀ c ∈ chunks m.toNat perm, c.length ≤ m.toNat)) ∧
        (m = (bs : ℤ) → 0 < bs → (chunks m.toNat perm).length = 1) := by
  intro mbs bs m heff
  obtain ⟨m0, -, hmc⟩ :
      ∃ m0, rawMiniBatchSize mbs bs = Except.ok m0 ∧ clampToBatch m0 bs = m := by
    cases hr : rawMiniBatchSize mbs bs with
    | error e => rw [effMiniBatchSize, hr] at heff; simp [Except.map] at heff
    | ok m0 =>
        rw [effMiniBatchSize, hr] at heff
        simp only [Except.map, Except.ok.injEq] at heff
        exact ⟨m0, rfl, heff⟩
  constructor
  · rw [← hmc]
    exact clampToBatch_le m0 bs
  · intro idx perm hperm hlen
    constructor
    · intro hpos
      have hpos' : 0 < m.toNat := by omega
      constructor
      · rw [chunks_flatten m.toNat hpos' perm]
        exact hperm.symm
      · exact chunks_mem_length m.toNat hpos' perm
    · intro hmb hbs
      have hmn : m.toNat = perm.length := by omega
      rw [hmn]
      apply chunks_full
      intro hnil
      rw [hnil] at hlen
      simp at hlen
      omega

/-- Witness for the amended C4: integer size 2 on a batch of 4 indices
shuffled as `[2, 0, 3, 1]` covers the batch exactly once; size equal to
the batch size yields one minibatch. -/
theorem C4_partition_amended_witness :
    ((chunks 2 [2, 0, 3, 1]).flatten).Perm [0, 1, 2, 3] ∧
    (chunks 4 [2, 0, 3, 1]).length = 1 := by
  constructor
  · exact (((C4_partition_amended (MBSize.int 2) 4 2 rfl).2 [0, 1, 2, 3] [2, 0, 3, 1]
      (by decide) rfl).1 (by decide)).1
  · exact ((C4_partition_amended (MBSize.int 4) 4 4 rfl).2 [0, 1, 2, 3] [2, 0, 3, 1]
      (by decide) rfl).2 rfl (by decide)

/-! ## C5: what the metrics report -/

theorem foldl_innerStep_fst {T : Type} (env : TrainEnv T) (cfg : PPOCfg) :
    ∀ (seq : List (List ℕ)) (p : T) (o : Option (LossComps × PolicyOut)),
      (seq.foldl (innerStep env cfg) (p, o)).1 = seq.foldl env.optStep p := by
  intro seq
  induction seq with
  | nil => intro p o; rfl
  | cons mb tl ih =>
      intro p o
      rw [List.foldl_cons, List.foldl_cons]
      exact ih (env.optStep p mb) _

/-- Running the inner loop over a non-empty minibatch sequence: the final
parameters are the fold of the optimizer steps, and the surviving Python
locals are the loss bundle and policy output of the last minibatch, both
computed at the parameters reached just before the last minibatch. -/
theorem runInner_concat {T : Type} (env : TrainEnv T) (cfg : PPOCfg) (p0 : T)
    (seqPre : List (List ℕ)) (lastMB : List ℕ) :
    runInner env cfg p0 (seqPre ++ [lastMB]) =
      (env.optStep (seqPre.foldl env.optStep p0) lastMB,
       some (minibatchLoss cfg (lastMB.map env.oldLogprobs) (lastMB.map env.reward)
               (env.score (seqPre.foldl env.optStep p0) lastMB)
               (env.criticOf (seqPre.foldl env.optStep p0) lastMB),
             env.score (seqPre.foldl env.optStep p0) lastMB)) := by
  unfold runInner
  rw [List.foldl_append, List.foldl_cons, List.foldl_nil]
  simp only [innerStep]
  rw [foldl_innerStep_fst env cfg seqPre p0 none]

/-- The training phase of `shared_step`, characterized for any run whose
effective minibatch size is positive and whose minibatch sequence is
non-empty: the reported loss bundle and the reported reward metric come
from the last minibatch alone. -/
theorem sharedStep_train_run {T : Type} (env : TrainEnv T) (cfg : PPOCfg) (p0 : T)
    (instances : List ℕ) (perms : ℕ → List ℕ) (m : ℤ)
    (seqPre : List (List ℕ)) (lastMB : List ℕ)
    (heff : effMiniBatchSize cfg.mini_batch_size instances.length = Except.ok m)
    (hpos : 0 < m)
    (hseq : trainBatches cfg m perms = seqPre ++ [lastMB]) :
    sharedStep env cfg Phase.train p0 instances perms =
      Except.ok
        ⟨env.optStep (seqPre.foldl env.optStep p0) lastMB,
         some (minibatchLoss cfg (lastMB.map env.oldLogprobs) (lastMB.map env.reward)
                 (env.score (seqPre.foldl env.optStep p0) lastMB)
                 (env.criticOf (seqPre.foldl env.optStep p0) lastMB)).total,
         tmean (env.score (seqPre.foldl env.optStep p0) lastMB).reward,
         some (minibatchLoss cfg (lastMB.map env.oldLogprobs) (lastMB.map env.reward)
                 (env.score (seqPre.foldl env.optStep p0) lastMB)
                 (env.criticOf (seqPre.foldl env.optStep p0) lastMB))⟩ := by
  obtain ⟨m0, hraw, hmc⟩ :
      ∃ m0, rawMiniBatchSize cfg.mini_batch_size instances.length = Except.ok m0 ∧
        clampToBatch m0 instances.length = m := by
    cases hr : rawMiniBatchSize cfg.mini_batch_size instances.length with
    | error e => rw [effMiniBatchSize, hr] at heff; simp [Except.map] at heff
    | ok m0 =>
        rw [effMiniBatchSize, hr] at heff
        simp only [Except.map, Except.ok.injEq] at heff
        exact ⟨m0, rfl, heff⟩
  unfold sharedStep
  rw [if_pos rfl, hraw]
  show (if clampToBatch m0 instances.length ≤ 0 then
      Except.error "batch_size should be a positive integer value"
    else finishTrain (runInner env cfg p0
      (trainBatches cfg (clampToBatch m0 instances.length) perms))) = _
  rw [hmc, if_neg (by omega : ¬ m ≤ 0), hseq, runInner_concat]
  rfl

/-- C5: the claim fails on the code.  Concretely: a rollout batch of two
instances with rewards 0 and 2 (mean 1), minibatch size 1, one inner
epoch, identity shuffle.  The last loop call to the policy re-evaluates
only the last minibatch `[1]`, so `out["reward"]` after the loop holds
just the rewards of that minibatch, and the logged reward metric is 2 —
the mean reward of the last minibatch, not the whole-batch rollout mean 1. -/
theorem C5_counterexample :
    Except.map StepOut.metricReward
        (sharedStep cEnv cCfg Phase.train () [0, 1] (fun _ => [0, 1])) =
      Except.ok 2 ∧
    tmean ([0, 1].map cEnv.reward) = 1 ∧
    (2 : ℝ) ≠ 1 := by
  refine ⟨?_, ?_, by norm_num⟩
  · have heff : effMiniBatchSize cCfg.mini_batch_size ([0, 1] : List ℕ).length =
        Except.ok 1 := rfl
    have hseq : trainBatches cCfg 1 (fun _ => [0, 1]) = [[0]] ++ [[1]] := rfl
    rw [sharedStep_train_run cEnv cCfg () [0, 1] (fun _ => [0, 1]) 1 [[0]] [1]
      heff (by norm_num) hseq]
    have hrew : (cEnv.score (([[0]] : List (List ℕ)).foldl cEnv.optStep ()) [1]).reward
        = [2] := by
      simp [cEnv, cRewardAt]
    simp only [Except.map, hrew]
    have : tmean [2] = 2 := by
      unfold tmean
      norm_num
    rw [this]
  · have : ([0, 1].map cEnv.reward) = [0, 2] := by
      simp [cEnv, cRewardAt]
    rw [this]
    unfold tmean
    norm_num

/-- C5 as amended: after the inner loop of a training step (positive
effective minibatch size, at least one minibatch processed), the metrics
reported for the outer step contain the mean reward of the LAST minibatch as
re-evaluated by the policy on the stored actions — which equals the
whole-batch rollout mean only when the last minibatch is the whole
batch — together with the total loss of the last minibatch, loss components
and entropy (not averages over all minibatches). -/
theorem C5_metrics_from_last_minibatch :
    ∀ (T : Type) (env : TrainEnv T) (cfg : PPOCfg) (p0 : T) (instances : List ℕ)
      (perms : ℕ → List ℕ) (m : ℤ) (seqPre : List (List ℕ)) (lastMB : List ℕ),
      effMiniBatchSize cfg.mini_batch_size instances.length = Except.ok m →
      0 < m →
      trainBatches cfg m perms = seqPre ++ [lastMB] →
      sharedStep env cfg Phase.train p0 instances perms =
        Except.ok
          ⟨env.optStep (seqPre.foldl env.optStep p0) lastMB,
           some (minibatchLoss cfg (lastMB.map env.oldLogprobs) (lastMB.map env.reward)
                   (env.score (seqPre.foldl env.optStep p0) lastMB)
                   (env.criticOf (seqPre.foldl env.optStep p0) lastMB)).total,
           tmean (env.score (seqPre.foldl env.optStep p0) lastMB).reward,
           some (minibatchLoss cfg (lastMB.map env.oldLogprobs) (lastMB.map env.reward)
                   (env.score (seqPre.foldl env.optStep p0) lastMB)
                   (env.criticOf (seqPre.foldl env.optStep p0) lastMB))⟩ := by
  intro T env cfg p0 instances perms m seqPre lastMB heff hpos hseq
  exact sharedStep_train_run env cfg p0 instances perms m seqPre lastMB heff hpos hseq

/-- Witness for the amended C5 on the concrete two-instance run: the
reported metrics are exactly those of the last minibatch. -/
theorem C5_metrics_from_last_minibatch_witness :
    sharedStep cEnv cCfg Phase.train () [0, 1] (fun _ => [0, 1]) =
      Except.ok
        ⟨(), some (minibatchLoss cCfg [0] [2] (cEnv.score () [1]) [0]).total, 2,
         some (minibatchLoss cCfg [0] [2] (cEnv.score () [1]) [0])⟩ := by
  rw [C5_metrics_from_last_minibatch Unit cEnv cCfg () [0, 1] (fun _ => [0, 1]) 1
    [[0]] [1] rfl (by norm_num) rfl]
  have h1 : ([1] : List ℕ).map cEnv.oldLogprobs = [0] := by simp [cEnv]
  have h2 : ([1] : List ℕ).map cEnv.reward = [2] := by simp [cEnv, cRewardAt]
  have h3 : cEnv.criticOf (([[0]] : List (List ℕ)).foldl cEnv.optStep ()) [1] = [0] := by
    simp [cEnv]
  have h4 : (cEnv.score (([[0]] : List (List ℕ)).foldl cEnv.optStep ()) [1]).reward
      = [2] := by simp [cEnv, cRewardAt]
  have h5 : tmean [2] = 2 := by unfold tmean; norm_num
  simp only [h1, h2, h3, h4, h5]

end PPOSpec
